import Mathlib

/-!
Shallow embedding of the sentiment-classifier training pipeline
(SentimentDataset, DataLoader batching, SentimentClassifier MLP,
calculate_accuracy, train, evaluate, predict_sentiment) from the
notebook source, together with theorems settling the specification
claims.

Real-number values carried by tensors are modelled as rationals.
Because the training loss can become non-finite at runtime (the spec
discusses NaN and infinity explicitly), loss values are modelled by
the type FVal, a rational extended with inf, neginf and nan, with
IEEE-style absorption rules for addition.

External library components (CrossEntropyLoss, the Adam optimizer
step with autograd, the sentence-transformer encoder and the text
preprocessing) are abstracted as function parameters, exactly where
the source passes them in as arguments (criterion, optimizer,
sentence_transformer_model).
-/

/-- Python-style sequence indexing, as used by tensor indexing and
pandas iloc inside SentimentDataset.getitem: a nonnegative index i is
valid when i < len, a negative index i is valid when len + i is in
range (counting from the end); anything else raises IndexError,
modelled as none. -/
def pyIndex {α : Type} (xs : List α) (i : ℤ) : Option α :=
  if 0 ≤ i then xs.get? i.toNat
  else if 0 ≤ (xs.length : ℤ) + i then xs.get? ((xs.length : ℤ) + i).toNat
  else none

/-- SentimentDataset from the source: the constructor stores the
embeddings and labels exactly as given, with no validation of any
kind. An embedding is a list of rationals; a label is an integer. -/
structure SentimentDataset where
  embeddings : List (List ℚ)
  labels : List ℤ

/-- Dataset construction, mirroring the source constructor: it only
assigns the two fields. -/
def SentimentDataset.init (embeddings : List (List ℚ)) (labels : List ℤ) :
    SentimentDataset :=
  { embeddings := embeddings, labels := labels }

/-- Embedding of the source len method: the number of stored
embeddings. -/
def SentimentDataset.len (d : SentimentDataset) : ℕ :=
  d.embeddings.length

/-- Embedding of the source getitem method: index into the embeddings
tensor, then into the labels series with iloc, both with Python
indexing semantics; return the pair. -/
def SentimentDataset.getitem (d : SentimentDataset) (idx : ℤ) :
    Option (List ℚ × ℤ) := do
  let embedding ← pyIndex d.embeddings idx
  let label ← pyIndex d.labels idx
  pure (embedding, label)

/-- A sample is well formed when its embedding has the fixed dimension
D and its label lies in the 3-class domain. Used to state the claims
about malformed samples. -/
def wellFormedSample (D : ℕ) (e : List ℚ) (l : ℤ) : Prop :=
  e.length = D ∧ (l = 0 ∨ l = 1 ∨ l = 2)

instance (D : ℕ) (e : List ℚ) (l : ℤ) : Decidable (wellFormedSample D e l) := by
  unfold wellFormedSample; infer_instance

/-- Batching semantics of the PyTorch DataLoader as configured in the
source for the test set: shuffle disabled and drop_last at its default
of false, so the sample sequence is cut into consecutive chunks of
size B, the last chunk possibly shorter. -/
def dataLoaderChunks {α : Type} (B : ℕ) : List α → List (List α)
  | [] => []
  | x :: xs => (x :: xs.take (B - 1)) :: dataLoaderChunks B (xs.drop (B - 1))
termination_by l => l.length
decreasing_by
  simp only [List.length_cons, List.length_drop]
  omega

/-- A collated batch as yielded by the DataLoader: the embeddings of
the chunk stacked together, and the labels stacked together. -/
structure Batch where
  embs : List (List ℚ)
  labels : List ℤ
deriving DecidableEq

/-- Default collate function of the DataLoader: a chunk of
(embedding, label) pairs is turned into a stacked embedding batch and
a stacked label batch. -/
def collate (chunk : List (List ℚ × ℤ)) : Batch :=
  { embs := chunk.map Prod.fst, labels := chunk.map Prod.snd }

/-- The batch sequence the DataLoader yields over a dataset given as a
list of (embedding, label) samples, with shuffle disabled. -/
def dataLoaderBatches (B : ℕ) (samples : List (List ℚ × ℤ)) : List Batch :=
  (dataLoaderChunks B samples).map collate

/-- Mode flag of an nn.Module: model.train() puts it in training mode,
model.eval() in evaluation mode; dropout is active only in training
mode. -/
inductive Mode where
  | training
  | evaluation
deriving DecidableEq

/-- Dot product of two rational vectors. -/
def dotQ (xs ys : List ℚ) : ℚ :=
  (List.zipWith (fun a b => a * b) xs ys).sum

/-- Matrix-vector product, the matrix given by its rows. -/
def matVec (W : List (List ℚ)) (x : List ℚ) : List ℚ :=
  W.map (fun row => dotQ row x)

/-- An nn.Linear layer: y = W x + b. -/
def affine (W : List (List ℚ)) (b : List ℚ) (x : List ℚ) : List ℚ :=
  List.zipWith (fun a c => a + c) (matVec W x) b

/-- Elementwise ReLU. -/
def reluVec (x : List ℚ) : List ℚ :=
  x.map (fun v => max v 0)

/-- An nn.Dropout layer given the Bernoulli keep-mask drawn from the
ambient RNG: in evaluation mode it is the identity; in training mode
each kept unit is rescaled by 1 / (1 - p) and each dropped unit is
zeroed. -/
def dropoutVec (mode : Mode) (p : ℚ) (mask : List Bool) (x : List ℚ) : List ℚ :=
  match mode with
  | .evaluation => x
  | .training => List.zipWith (fun keep v => if keep then v / (1 - p) else 0) mask x

/-- SentimentClassifier from the source: fc1 (weights and bias), ReLU,
dropout with probability dropout_prob, fc2 (weights and bias). The
module also carries the nn.Module training flag toggled by
model.train() and model.eval(). -/
structure SentimentClassifier where
  fc1W : List (List ℚ)
  fc1b : List ℚ
  fc2W : List (List ℚ)
  fc2b : List ℚ
  dropout_prob : ℚ
  mode : Mode

/-- Forward pass of SentimentClassifier on one embedding vector, with
the dropout mask for this sample supplied explicitly (the source draws
it from the global RNG): out = fc2 (dropout (relu (fc1 x))). -/
def SentimentClassifier.forward (m : SentimentClassifier) (mask : List Bool)
    (x : List ℚ) : List ℚ :=
  let out := affine m.fc1W m.fc1b x
  let out := reluVec out
  let out := dropoutVec m.mode m.dropout_prob mask out
  affine m.fc2W m.fc2b out

/-- Forward pass on a whole batch: one forward per sample, each sample
with its own dropout mask (bm i is the mask for sample i). -/
def SentimentClassifier.forwardBatch (m : SentimentClassifier)
    (bm : ℕ → List Bool) (xs : List (List ℚ)) : List (List ℚ) :=
  xs.mapIdx (fun i x => m.forward (bm i) x)

/-- Semantics of torch.max over the class dimension: the index of the
first maximal entry (ties broken by the lowest index). On an empty
vector we return 0 (torch would reject the shape; vectors here always
have the output dimension of fc2). -/
def torchArgmax (l : List ℚ) : ℕ :=
  match l.maximum with
  | none => 0
  | some m => l.indexOf m

/-- calculate_accuracy from the source: take the argmax class of every
row of predictions, compare with the labels elementwise, and divide
the number of matches by the number of labels. -/
def calculate_accuracy (predictions : List (List ℚ)) (labels : List ℤ) : ℚ :=
  let predicted_classes := predictions.map torchArgmax
  let correct_predictions :=
    (List.zip predicted_classes labels).countP (fun pl => (pl.1 : ℤ) = pl.2)
  (correct_predictions : ℚ) / (labels.length : ℚ)

/-- Runtime value of a scalar loss as loss.item() returns it: a finite
rational, or one of the non-finite float values inf, neginf, nan. -/
inductive FVal where
  | fin (q : ℚ)
  | inf
  | neginf
  | nan
deriving DecidableEq

/-- Addition of loss values with IEEE-style absorption: nan absorbs
everything, opposite infinities give nan, an infinity absorbs finite
values. -/
def FVal.add : FVal → FVal → FVal
  | .nan, _ => .nan
  | _, .nan => .nan
  | .inf, .neginf => .nan
  | .inf, _ => .inf
  | .neginf, .inf => .nan
  | .neginf, _ => .neginf
  | .fin _, .inf => .inf
  | .fin _, .neginf => .neginf
  | .fin a, .fin b => .fin (a + b)

/-- Division of an accumulated loss value by a positive batch count
(the caller guards the count-zero case, where Python raises
ZeroDivisionError). -/
def FVal.divNat : FVal → ℕ → FVal
  | .fin q, n => .fin (q / (n : ℚ))
  | .inf, _ => .inf
  | .neginf, _ => .neginf
  | .nan, _ => .nan

/-- Whether a loss value is finite. -/
def FVal.isFinite : FVal → Bool
  | .fin _ => true
  | _ => false

/-- Left-fold sum of a list of loss values, mirroring the running
accumulation epoch_loss += loss.item() started from 0. -/
def FVal.sumList (ls : List FVal) : FVal :=
  ls.foldl FVal.add (.fin 0)

/-- The loss function as train and evaluate receive it (criterion, an
nn.CrossEntropyLoss instance): an external library function from the
prediction rows and the labels to a scalar loss value, abstracted
because its numerics live outside the repository. -/
def Criterion : Type :=
  List (List ℚ) → List ℤ → FVal

/-- The combined loss.backward(); optimizer.step() of one training
batch: an external library operation that, from the optimizer state
and the model on the current batch, produces the updated optimizer
state and updated model parameters. Abstracted because Adam and
autograd live outside the repository. -/
def OptStep (O : Type) : Type :=
  O → SentimentClassifier → Batch → O × SentimentClassifier

/-- The exception a run of train or evaluate can raise: Python
ZeroDivisionError from the final division when the dataloader has no
batches. -/
inductive PyError where
  | zeroDivisionError
deriving DecidableEq

/-- The loop body of train, with the running epoch_loss and epoch_acc
accumulators and the batch index threaded through: per batch, forward
in training mode with fresh dropout masks, loss via criterion,
accuracy via calculate_accuracy, then backward and one optimizer step
(after optimizer.zero_grad(), subsumed in the abstract step), then
accumulate both metrics. Returns the final model, optimizer state and
accumulators. -/
def trainLoop {O : Type} (optStep : OptStep O) (criterion : Criterion)
    (rng : ℕ → ℕ → List Bool) :
    SentimentClassifier → O → FVal → ℚ → ℕ → List Batch →
    SentimentClassifier × O × FVal × ℚ
  | m, o, epoch_loss, epoch_acc, _, [] => (m, o, epoch_loss, epoch_acc)
  | m, o, epoch_loss, epoch_acc, i, b :: bs =>
    let predictions := m.forwardBatch (rng i) b.embs
    let loss := criterion predictions b.labels
    let acc := calculate_accuracy predictions b.labels
    let om := optStep o m b
    trainLoop optStep criterion rng om.2 om.1
      (epoch_loss.add loss) (epoch_acc + acc) (i + 1) bs

/-- train from the source: one epoch. Sets the model to training mode,
folds trainLoop over the batches starting from zero accumulators, then
divides both accumulators by len(dataloader); with zero batches that
division raises ZeroDivisionError. Returns the mutated model, the
mutated optimizer state and the epoch metrics. -/
def train {O : Type} (m : SentimentClassifier) (dataloader : List Batch)
    (o : O) (optStep : OptStep O) (criterion : Criterion)
    (rng : ℕ → ℕ → List Bool) :
    SentimentClassifier × O × Except PyError (FVal × ℚ) :=
  let mt := { m with mode := Mode.training }
  let r := trainLoop optStep criterion rng mt o (.fin 0) 0 0 dataloader
  if dataloader.length = 0 then
    (r.1, r.2.1, .error .zeroDivisionError)
  else
    (r.1, r.2.1, .ok (r.2.2.1.divNat dataloader.length,
      r.2.2.2 / (dataloader.length : ℚ)))

/-- The loop body of evaluate: per batch, forward with the model as
is, loss and accuracy, accumulate; no backward, no optimizer step, no
parameter write. The torch.no_grad() context only suppresses gradient
bookkeeping and has no observable effect on the computed values. -/
def evalLoop (m : SentimentClassifier) (criterion : Criterion)
    (rng : ℕ → ℕ → List Bool) :
    FVal → ℚ → ℕ → List Batch → FVal × ℚ
  | epoch_loss, epoch_acc, _, [] => (epoch_loss, epoch_acc)
  | epoch_loss, epoch_acc, i, b :: bs =>
    let predictions := m.forwardBatch (rng i) b.embs
    let loss := criterion predictions b.labels
    let acc := calculate_accuracy predictions b.labels
    evalLoop m criterion rng (epoch_loss.add loss) (epoch_acc + acc) (i + 1) bs

/-- evaluate from the source: sets the model to evaluation mode, folds
evalLoop over the batches from zero accumulators, divides by
len(dataloader) (ZeroDivisionError on zero batches). It receives no
optimizer. The model (with only its mode flag switched) and the
dataloader are returned so the embedding states what the call leaves
behind. -/
def evaluate (m : SentimentClassifier) (dataloader : List Batch)
    (criterion : Criterion) (rng : ℕ → ℕ → List Bool) :
    SentimentClassifier × List Batch × Except PyError (FVal × ℚ) :=
  let me := { m with mode := Mode.evaluation }
  let r := evalLoop me criterion rng (.fin 0) 0 0 dataloader
  if dataloader.length = 0 then
    (me, dataloader, .error .zeroDivisionError)
  else
    (me, dataloader, .ok (r.1.divNat dataloader.length,
      r.2 / (dataloader.length : ℚ)))

/-- The per-batch training losses, batch by batch, with the model and
optimizer state evolving exactly as in trainLoop: the list whose entry
k is the loss computed on batch k during the epoch. -/
def trainBatchLosses {O : Type} (optStep : OptStep O) (criterion : Criterion)
    (rng : ℕ → ℕ → List Bool) :
    SentimentClassifier → O → ℕ → List Batch → List FVal
  | _, _, _, [] => []
  | m, o, i, b :: bs =>
    let predictions := m.forwardBatch (rng i) b.embs
    let om := optStep o m b
    criterion predictions b.labels ::
      trainBatchLosses optStep criterion rng om.2 om.1 (i + 1) bs

/-- The per-batch training accuracies, evolving like
trainBatchLosses. -/
def trainBatchAccs {O : Type} (optStep : OptStep O) (criterion : Criterion)
    (rng : ℕ → ℕ → List Bool) :
    SentimentClassifier → O → ℕ → List Batch → List ℚ
  | _, _, _, [] => []
  | m, o, i, b :: bs =>
    let predictions := m.forwardBatch (rng i) b.embs
    let om := optStep o m b
    calculate_accuracy predictions b.labels ::
      trainBatchAccs optStep criterion rng om.2 om.1 (i + 1) bs

/-- The per-batch evaluation losses (the model does not evolve during
evaluation). -/
def evalBatchLosses (m : SentimentClassifier) (criterion : Criterion)
    (rng : ℕ → ℕ → List Bool) : ℕ → List Batch → List FVal
  | _, [] => []
  | i, b :: bs =>
    criterion (m.forwardBatch (rng i) b.embs) b.labels ::
      evalBatchLosses m criterion rng (i + 1) bs

/-- The per-batch evaluation accuracies. -/
def evalBatchAccs (m : SentimentClassifier) (criterion : Criterion)
    (rng : ℕ → ℕ → List Bool) : ℕ → List Batch → List ℚ
  | _, [] => []
  | i, b :: bs =>
    calculate_accuracy (m.forwardBatch (rng i) b.embs) b.labels ::
      evalBatchAccs m criterion rng (i + 1) bs

/-- sentiment_map from the source: the label table. -/
def sentiment_map : List (String × ℕ) :=
  [("negative", 0), ("neutral", 1), ("positive", 2)]

/-- sentiment_map_inv from the source: the inverted label table,
built by swapping every pair of sentiment_map. -/
def sentiment_map_inv : List (ℕ × String) :=
  sentiment_map.map (fun kv => (kv.2, kv.1))

/-- predict_sentiment from the source: set the model to evaluation
mode, preprocess the sentence, encode it with the sentence-transformer
model (both external, abstracted as function parameters), forward the
embedding (a batch of one collapses to a single forward; evaluation
mode uses no dropout mask), take the argmax class, and look it up in
sentiment_map_inv (a missing key would raise KeyError, modelled as
none). Returns the model as the call leaves it, with the predicted
sentiment. -/
def predict_sentiment (m : SentimentClassifier)
    (st_encode : String → List ℚ) (sentence : String)
    (preprocess : String → String) :
    SentimentClassifier × Option String :=
  let me := { m with mode := Mode.evaluation }
  let processed_sentence := preprocess sentence
  let embedding := st_encode processed_sentence
  let prediction := me.forward [] embedding
  let predicted_sentiment_index := torchArgmax prediction
  (me, sentiment_map_inv.lookup predicted_sentiment_index)

/-- Decidable equality for Except results, used to evaluate concrete
runs of train and evaluate. -/
instance {e a : Type} [DecidableEq e] [DecidableEq a] :
    DecidableEq (Except e a) := fun x y =>
  match x, y with
  | .ok v, .ok w =>
    if h : v = w then .isTrue (by rw [h])
    else .isFalse (by intro hc; cases hc; exact h rfl)
  | .error v, .error w =>
    if h : v = w then .isTrue (by rw [h])
    else .isFalse (by intro hc; cases hc; exact h rfl)
  | .ok _, .error _ => .isFalse (by intro hc; cases hc)
  | .error _, .ok _ => .isFalse (by intro hc; cases hc)

/-- A minimal concrete classifier (all layers empty) used by concrete
instantiations of the theorems. -/
def witModel : SentimentClassifier :=
  { fc1W := [], fc1b := [], fc2W := [], fc2b := [],
    dropout_prob := 1 / 2, mode := Mode.evaluation }

/-- A one-sample concrete batch. -/
def witBatch : Batch := { embs := [[]], labels := [0] }

/-- A concrete optimizer step that leaves everything unchanged. -/
def witStep : OptStep Unit := fun o m _ => (o, m)

/-- A concrete loss function that returns NaN on every batch,
modelling a numerically overflowing cross-entropy. -/
def witCriterionNan : Criterion := fun _ _ => FVal.nan

/-- A concrete loss function that returns 1 on every batch. -/
def witCriterionOne : Criterion := fun _ _ => FVal.fin 1

/-- A concrete RNG that yields empty dropout masks. -/
def witRng : ℕ → ℕ → List Bool := fun _ _ => []

/-- A concrete classifier with input width 1, hidden width 1 and the
output width 3 of the 3-class head. -/
def witModel9 : SentimentClassifier :=
  { fc1W := [[1]], fc1b := [0], fc2W := [[1], [0], [0]], fc2b := [0, 0, 0],
    dropout_prob := 1 / 2, mode := Mode.training }

/-! ### Helper lemmas -/

theorem get?_isSome_iff {α : Type} (xs : List α) (n : ℕ) :
    (xs.get? n).isSome ↔ n < xs.length := by
  rw [Option.isSome_iff_ne_none, ne_eq, List.get?_eq_none]
  omega

theorem pyIndex_isSome {α : Type} (xs : List α) (i : ℤ) :
    (pyIndex xs i).isSome ↔ (-(xs.length : ℤ) ≤ i ∧ i < (xs.length : ℤ)) := by
  unfold pyIndex
  split
  · rename_i h0
    rw [get?_isSome_iff]
    omega
  · split
    · rename_i h0 h1
      rw [get?_isSome_iff]
      omega
    · rename_i h0 h1
      simp only [Option.isSome_none, Bool.false_eq_true, false_iff]
      omega

theorem pyIndex_nonneg {α : Type} (xs : List α) (i : ℤ) (h : 0 ≤ i) :
    pyIndex xs i = xs.get? i.toNat := by
  unfold pyIndex
  rw [if_pos h]

theorem dataLoaderChunks_eq_nil_iff {α : Type} (B : ℕ) (l : List α) :
    dataLoaderChunks B l = [] ↔ l = [] := by
  cases l with
  | nil => simp [dataLoaderChunks]
  | cons x xs => simp [dataLoaderChunks]

theorem dataLoaderChunks_flatten {α : Type} (B : ℕ) (l : List α) :
    (dataLoaderChunks B l).flatten = l := by
  have H : ∀ (n : ℕ) (l : List α), l.length ≤ n →
      (dataLoaderChunks B l).flatten = l := by
    intro n
    induction n with
    | zero =>
      intro l hl
      have hnil : l = [] := by
        cases l with
        | nil => rfl
        | cons a as => simp at hl
      subst hnil
      simp [dataLoaderChunks]
    | succ n ih =>
      intro l hl
      cases l with
      | nil => simp [dataLoaderChunks]
      | cons x xs =>
        rw [dataLoaderChunks]
        simp only [List.flatten_cons]
        rw [ih (xs.drop (B - 1)) (by simp only [List.length_drop]; simp at hl; omega)]
        rw [List.cons_append, List.take_append_drop]
  exact H l.length l le_rfl

theorem dataLoaderChunks_dropLast_length {α : Type} (B : ℕ) (hB : 0 < B) (l : List α) :
    ∀ c ∈ (dataLoaderChunks B l).dropLast, c.length = B := by
  have H : ∀ (n : ℕ) (l : List α), l.length ≤ n →
      ∀ c ∈ (dataLoaderChunks B l).dropLast, c.length = B := by
    intro n
    induction n with
    | zero =>
      intro l hl
      have hnil : l = [] := by
        cases l with
        | nil => rfl
        | cons a as => simp at hl
      subst hnil
      simp [dataLoaderChunks]
    | succ n ih =>
      intro l hl
      cases l with
      | nil => simp [dataLoaderChunks]
      | cons x xs =>
        rw [dataLoaderChunks]
        by_cases hrest : xs.drop (B - 1) = []
        · rw [hrest]
          simp [dataLoaderChunks]
        · have hres2 : dataLoaderChunks B (xs.drop (B - 1)) ≠ [] := by
            rw [ne_eq, dataLoaderChunks_eq_nil_iff]
            exact hrest
          intro c hc
          rw [List.dropLast_cons_of_ne_nil hres2] at hc
          rcases List.mem_cons.mp hc with h | h
          · subst h
            have hgt : B - 1 < xs.length := by
              by_contra hcon
              exact hrest (List.drop_eq_nil_iff.mpr (by omega))
            simp only [List.length_cons, List.length_take]
            omega
          · exact ih (xs.drop (B - 1))
              (by simp only [List.length_drop]; simp at hl; omega) c h
  exact H l.length l le_rfl

theorem dataLoaderChunks_getLast_length {α : Type} (B : ℕ) (hB : 0 < B)
    (l : List α) (hl : l ≠ []) :
    ((dataLoaderChunks B l).getLast?).map List.length
      = some (if l.length % B = 0 then B else l.length % B) := by
  have H : ∀ (n : ℕ) (l : List α), l.length ≤ n → l ≠ [] →
      ((dataLoaderChunks B l).getLast?).map List.length
        = some (if l.length % B = 0 then B else l.length % B) := by
    intro n
    induction n with
    | zero =>
      intro l hl hne
      cases l with
      | nil => exact absurd rfl hne
      | cons a as => simp at hl
    | succ n ih =>
      intro l hl hne
      cases l with
      | nil => exact absurd rfl hne
      | cons x xs =>
        rw [dataLoaderChunks]
        by_cases hrest : xs.drop (B - 1) = []
        · rw [hrest]
          have hxs : xs.length ≤ B - 1 := List.drop_eq_nil_iff.mp hrest
          have hmin : min (B - 1) xs.length = xs.length := by omega
          simp only [dataLoaderChunks, List.getLast?_singleton, Option.map_some',
            List.length_cons, List.length_take, hmin, Option.some.injEq]
          by_cases hEq : xs.length + 1 = B
          · rw [hEq, Nat.mod_self, if_pos rfl]
          · have hlt : xs.length + 1 < B := by omega
            rw [Nat.mod_eq_of_lt hlt, if_neg (by omega)]
        · have hres2 : dataLoaderChunks B (xs.drop (B - 1)) ≠ [] := by
            rw [ne_eq, dataLoaderChunks_eq_nil_iff]
            exact hrest
          obtain ⟨r, rs, hrr⟩ : ∃ r rs, dataLoaderChunks B (xs.drop (B - 1)) = r :: rs := by
            cases hcase : dataLoaderChunks B (xs.drop (B - 1)) with
            | nil => exact absurd hcase hres2
            | cons r rs => exact ⟨r, rs, rfl⟩
          rw [hrr, List.getLast?_cons_cons, ← hrr]
          rw [ih (xs.drop (B - 1))
            (by simp only [List.length_drop]; simp at hl; omega) hrest]
          have hgt : B - 1 < xs.length := by
            by_contra hcon
            exact hrest (List.drop_eq_nil_iff.mpr (by omega))
          have hmod : (xs.drop (B - 1)).length % B = (x :: xs).length % B := by
            simp only [List.length_drop, List.length_cons]
            have h1 : xs.length + 1 = (xs.length - (B - 1)) + B := by omega
            rw [h1, Nat.add_mod_right]
          rw [hmod]
  exact H l.length l le_rfl hl

theorem dataLoaderChunks_singleton {α : Type} (s : α) :
    dataLoaderChunks 64 [s] = [[s]] := by
  simp [dataLoaderChunks]

theorem forward_mask_irrel (m : SentimentClassifier)
    (h : m.mode = Mode.evaluation) (mask1 mask2 : List Bool) (x : List ℚ) :
    m.forward mask1 x = m.forward mask2 x := by
  simp only [SentimentClassifier.forward, dropoutVec, h]

theorem forwardBatch_mask_irrel (m : SentimentClassifier)
    (h : m.mode = Mode.evaluation) (bm1 bm2 : ℕ → List Bool)
    (xs : List (List ℚ)) :
    m.forwardBatch bm1 xs = m.forwardBatch bm2 xs := by
  simp only [SentimentClassifier.forwardBatch, List.mapIdx_eq_enum_map]
  apply List.map_congr_left
  intro p _
  exact forward_mask_irrel m h (bm1 p.1) (bm2 p.1) p.2

theorem evalLoop_rng_irrel (m : SentimentClassifier)
    (h : m.mode = Mode.evaluation) (criterion : Criterion)
    (rng1 rng2 : ℕ → ℕ → List Bool) :
    ∀ (bs : List Batch) (el : FVal) (ea : ℚ) (i : ℕ),
    evalLoop m criterion rng1 el ea i bs = evalLoop m criterion rng2 el ea i bs := by
  intro bs
  induction bs with
  | nil => intro el ea i; rfl
  | cons b bs ih =>
    intro el ea i
    simp only [evalLoop]
    rw [forwardBatch_mask_irrel m h (rng1 i) (rng2 i)]
    apply ih

theorem FVal.add_nan_right (x : FVal) : x.add .nan = .nan := by
  cases x <;> rfl

theorem FVal.foldl_add_nan_acc (ls : List FVal) :
    ls.foldl FVal.add .nan = .nan := by
  induction ls with
  | nil => rfl
  | cons l ls ih => simpa [FVal.add] using ih

theorem FVal.foldl_add_of_nan_mem (ls : List FVal) (hmem : FVal.nan ∈ ls) :
    ∀ (e : FVal), ls.foldl FVal.add e = .nan := by
  induction ls with
  | nil => cases hmem
  | cons l ls ih =>
    intro e
    rcases List.mem_cons.mp hmem with h | h
    · subst h
      simp only [List.foldl_cons, FVal.add_nan_right]
      exact FVal.foldl_add_nan_acc ls
    · exact ih h (e.add l)

theorem trainLoop_metrics {O : Type} (optStep : OptStep O) (criterion : Criterion)
    (rng : ℕ → ℕ → List Bool) :
    ∀ (bs : List Batch) (m : SentimentClassifier) (o : O) (el : FVal) (ea : ℚ) (i : ℕ),
    (trainLoop optStep criterion rng m o el ea i bs).2.2
      = ((trainBatchLosses optStep criterion rng m o i bs).foldl FVal.add el,
         ea + (trainBatchAccs optStep criterion rng m o i bs).sum) := by
  intro bs
  induction bs with
  | nil =>
    intro m o el ea i
    simp [trainLoop, trainBatchLosses, trainBatchAccs]
  | cons b bs ih =>
    intro m o el ea i
    simp only [trainLoop, trainBatchLosses, trainBatchAccs, List.foldl_cons,
      List.sum_cons]
    rw [ih]
    rw [add_assoc]

theorem evalLoop_metrics (m : SentimentClassifier) (criterion : Criterion)
    (rng : ℕ → ℕ → List Bool) :
    ∀ (bs : List Batch) (el : FVal) (ea : ℚ) (i : ℕ),
    evalLoop m criterion rng el ea i bs
      = ((evalBatchLosses m criterion rng i bs).foldl FVal.add el,
         ea + (evalBatchAccs m criterion rng i bs).sum) := by
  intro bs
  induction bs with
  | nil =>
    intro el ea i
    simp [evalLoop, evalBatchLosses, evalBatchAccs]
  | cons b bs ih =>
    intro el ea i
    simp only [evalLoop, evalBatchLosses, evalBatchAccs, List.foldl_cons,
      List.sum_cons]
    rw [ih]
    rw [add_assoc]

theorem torchArgmax_lt_length (l : List ℚ) (hl : l ≠ []) :
    torchArgmax l < l.length := by
  unfold torchArgmax
  cases hmax : l.maximum with
  | bot => exact absurd (List.maximum_eq_none.mp hmax) hl
  | coe M => exact List.indexOf_lt_length.mpr (List.maximum_mem hmax)

theorem getD_eq_get (l : List ℚ) (j : ℕ) (hj : j < l.length) :
    l.getD j 0 = l.get ⟨j, hj⟩ := by
  simp [List.getD_eq_getElem?_getD, List.getElem?_eq_getElem hj]

theorem torchArgmax_getD_max (l : List ℚ) (hl : l ≠ [])
    (hmax : l.maximum = some M) : l.getD (torchArgmax l) 0 = M := by
  have hlt : torchArgmax l < l.length := torchArgmax_lt_length l hl
  rw [getD_eq_get l _ hlt]
  have : torchArgmax l = l.indexOf M := by unfold torchArgmax; rw [hmax]
  simp only [this] at hlt ⊢
  exact List.indexOf_get hlt

theorem torchArgmax_getD_le (l : List ℚ) (hl : l ≠ []) (j : ℕ) (hj : j < l.length) :
    l.getD j 0 ≤ l.getD (torchArgmax l) 0 := by
  cases hmax : l.maximum with
  | bot => exact absurd (List.maximum_eq_none.mp hmax) hl
  | coe M =>
    rw [torchArgmax_getD_max l hl hmax, getD_eq_get l j hj]
    exact List.le_maximum_of_mem (l.get_mem _ _) hmax

theorem torchArgmax_first (l : List ℚ) (j : ℕ) (hj : j < torchArgmax l) :
    l.getD j 0 < l.getD (torchArgmax l) 0 := by
  have hl : l ≠ [] := by
    intro h
    subst h
    simp [torchArgmax, List.maximum] at hj
  cases hmax : l.maximum with
  | bot => exact absurd (List.maximum_eq_none.mp hmax) hl
  | coe M =>
    have hidx : torchArgmax l = l.indexOf M := by unfold torchArgmax; rw [hmax]
    have hjlen : j < l.length :=
      lt_trans hj (torchArgmax_lt_length l hl)
    have hne : l.get ⟨j, hjlen⟩ ≠ M := by
      have hj2 : j < l.findIdx (fun b => b == M) := by
        rw [hidx] at hj
        exact hj
      have := List.not_of_lt_findIdx hj2
      simpa using this
    have hle : l.getD j 0 ≤ l.getD (torchArgmax l) 0 :=
      torchArgmax_getD_le l hl j hjlen
    rw [torchArgmax_getD_max l hl hmax] at hle ⊢
    rw [getD_eq_get l j hjlen] at hle ⊢
    exact lt_of_le_of_ne hle hne

/-! ### Claim theorems -/

/-- C2 counterexample: dataset construction performs no validation.
The sample with embedding [1, 1] (length 2, not the fixed dimension
384) and label 5 (outside the 3-class set) is malformed, yet the
constructor stores it verbatim and raises nothing, and the sample can
be retrieved unchanged; this falsifies the claim that construction
raises an InputError and admits no malformed sample. -/
theorem C2_counterexample :
    ¬ wellFormedSample 384 [1, 1] 5
    ∧ (SentimentDataset.init [[1, 1]] [5]).embeddings = [[1, 1]]
    ∧ (SentimentDataset.init [[1, 1]] [5]).labels = [5]
    ∧ (SentimentDataset.init [[1, 1]] [5]).getitem 0 = some ([1, 1], 5) := by
  refine ⟨by decide, rfl, rfl, rfl⟩

/-- C2 (amended): SentimentDataset construction performs no
validation whatsoever: every sample, however malformed (embedding
length differing from the fixed dimension D, label outside {0,1,2}),
is admitted as given and is later retrievable verbatim; no InputError
exists and nothing is raised or coerced at construction. -/
theorem C2_no_validation (embeddings : List (List ℚ)) (labels : List ℤ)
    (D : ℕ) (i : ℤ) (e : List ℚ) (l : ℤ)
    (he : pyIndex embeddings i = some e) (hl : pyIndex labels i = some l)
    (hmal : ¬ wellFormedSample D e l) :
    (SentimentDataset.init embeddings labels).getitem i = some (e, l) := by
  simp [SentimentDataset.getitem, SentimentDataset.init, he, hl]

/-- C2 witness: the amended theorem applied to the concrete malformed
sample of the counterexample. -/
theorem C2_witness :
    pyIndex [[1, 1]] 0 = some [1, 1]
    ∧ pyIndex ([5] : List ℤ) 0 = some 5
    ∧ ¬ wellFormedSample 384 [1, 1] 5
    ∧ (SentimentDataset.init [[1, 1]] [5]).getitem 0 = some ([1, 1], 5) :=
  ⟨by decide, by decide, by decide,
    C2_no_validation [[1, 1]] [5] 384 0 [1, 1] 5 (by decide) (by decide)
      (by decide)⟩

/-- C3: evaluation is a deterministic function of the parameters, the
dataset and the loss function: two evaluate calls with identical
ClassifierHead parameters and an identical dataset return identical
(loss, accuracy) results, independently even of the state of the
dropout RNG, because evaluation mode bypasses dropout. -/
theorem C3_evaluate_deterministic (m : SentimentClassifier) (dl : List Batch)
    (criterion : Criterion) (rng1 rng2 : ℕ → ℕ → List Bool) :
    evaluate m dl criterion rng1 = evaluate m dl criterion rng2 := by
  simp only [evaluate]
  rw [evalLoop_rng_irrel { m with mode := Mode.evaluation } rfl criterion rng1 rng2]

/-- C4: for a dataset batched with batch size B and no shuffling,
concatenating the yielded batches in order reproduces the original
samples exactly; every batch except the last has size B and the last
has size N mod B (or B when N mod B = 0); and a dataset of size 1
with batch_size 64 yields exactly one batch, of size 1, without
error. -/
theorem C4_unshuffled_batching (B : ℕ) (hB : 0 < B) (l : List (List ℚ × ℤ)) :
    (dataLoaderChunks B l).flatten = l
    ∧ (∀ c ∈ (dataLoaderChunks B l).dropLast, c.length = B)
    ∧ (l ≠ [] → ((dataLoaderChunks B l).getLast?).map List.length
        = some (if l.length % B = 0 then B else l.length % B))
    ∧ (∀ s : List ℚ × ℤ, dataLoaderBatches 64 [s] = [collate [s]]
        ∧ (collate [s]).embs.length = 1 ∧ (collate [s]).labels.length = 1) := by
  refine ⟨dataLoaderChunks_flatten B l, dataLoaderChunks_dropLast_length B hB l,
    fun hl => dataLoaderChunks_getLast_length B hB l hl, ?_⟩
  intro s
  refine ⟨?_, by simp [collate], by simp [collate]⟩
  simp [dataLoaderBatches, dataLoaderChunks_singleton]

/-- C4 witness: the batching theorem applied at batch size 2 to a
three-sample dataset. -/
theorem C4_witness :
    0 < 2
    ∧ (dataLoaderChunks 2 [(([1], 0) : List ℚ × ℤ), ([2], 1), ([3], 2)]).flatten
      = [(([1], 0) : List ℚ × ℤ), ([2], 1), ([3], 2)] :=
  ⟨by decide,
    (C4_unshuffled_batching 2 (by decide) [([1], 0), ([2], 1), ([3], 2)]).1⟩

/-- C5 counterexample: retrieval does not fail for every index
outside [0, N): on a dataset of size 2 the index -1 is outside
[0, 2), yet getitem succeeds and returns the last sample, Python
negative indexing being accepted by both the embedding tensor and the
label series. -/
theorem C5_counterexample :
    ((SentimentDataset.init [[1], [2]] [0, 1]).getitem (-1)) = some ([2], 1)
    ∧ ((-1 : ℤ) < 0) := by
  constructor
  · rfl
  · decide

/-- C5 (amended): for a dataset whose embedding list and label list
both have length N, sample retrieval succeeds exactly for the indices
in [-N, N) (negative indices counting from the end, Python style) and
fails with an IndexError condition for every index outside that
interval. -/
theorem C5_getitem_range (embeddings : List (List ℚ)) (labels : List ℤ) (i : ℤ)
    (h : labels.length = embeddings.length) :
    ((SentimentDataset.init embeddings labels).getitem i).isSome
      ↔ (-(embeddings.length : ℤ) ≤ i ∧ i < (embeddings.length : ℤ)) := by
  have hiff : ((SentimentDataset.init embeddings labels).getitem i).isSome
      ↔ ((pyIndex embeddings i).isSome ∧ (pyIndex labels i).isSome) := by
    unfold SentimentDataset.getitem SentimentDataset.init
    cases pyIndex embeddings i <;> cases pyIndex labels i <;> simp
  rw [hiff, pyIndex_isSome, pyIndex_isSome, h]
  omega

/-- C5 witness: the amended range theorem applied to a concrete
dataset of size 2 at index 5, which is out of range. -/
theorem C5_witness :
    ([0, 1] : List ℤ).length = ([[1], [2]] : List (List ℚ)).length
    ∧ (((SentimentDataset.init [[1], [2]] [0, 1]).getitem 5).isSome
      ↔ (-((([[1], [2]] : List (List ℚ)).length : ℤ)) ≤ 5
          ∧ (5 : ℤ) < (([[1], [2]] : List (List ℚ)).length : ℤ))) :=
  ⟨by decide, C5_getitem_range [[1], [2]] [0, 1] 5 (by decide)⟩

/-- C6: evaluate mutates neither the ClassifierHead parameters (W1,
b1, W2, b2) nor the dataset; it computes no gradient and receives no
optimizer at all (its signature has no optimizer argument), so the
optimizer state cannot be touched. Only the mode flag of the module
is switched to evaluation. -/
theorem C6_evaluate_frame (m : SentimentClassifier) (dl : List Batch)
    (criterion : Criterion) (rng : ℕ → ℕ → List Bool) :
    (evaluate m dl criterion rng).1.fc1W = m.fc1W
    ∧ (evaluate m dl criterion rng).1.fc1b = m.fc1b
    ∧ (evaluate m dl criterion rng).1.fc2W = m.fc2W
    ∧ (evaluate m dl criterion rng).1.fc2b = m.fc2b
    ∧ (evaluate m dl criterion rng).2.1 = dl := by
  simp only [evaluate]
  split <;> simp

/-- C1 counterexample: a batch whose loss is NaN does not abort the
epoch and surfaces no error: train returns normally with the NaN
absorbed into the returned epoch loss average, falsifying the claim
that a non-finite loss aborts the epoch with a NumericInstability
error and is never absorbed into the running average. -/
theorem C1_counterexample :
    (train witModel [witBatch] () witStep witCriterionNan witRng).2.2
      = .ok (FVal.nan, 1)
    ∧ FVal.nan.isFinite = false := by
  refine ⟨?_, rfl⟩
  simp only [train, trainLoop, witModel, witBatch, witStep, witCriterionNan,
    witRng, calculate_accuracy, torchArgmax, FVal.add, FVal.divNat,
    SentimentClassifier.forwardBatch, SentimentClassifier.forward, affine,
    matVec, reluVec, dropoutVec, dotQ]
  norm_num
  rfl

/-- C1 (amended): train performs no finiteness check: whenever the
loss of any batch of the epoch is NaN, train completes the epoch
normally and returns ok with the NaN absorbed into the running loss
average (which is then NaN); no NumericInstability error exists in
the code and nothing propagates to the caller. -/
theorem C1_nan_absorbed {O : Type} (m : SentimentClassifier) (dl : List Batch)
    (o : O) (optStep : OptStep O) (criterion : Criterion)
    (rng : ℕ → ℕ → List Bool) (hdl : dl ≠ [])
    (hnan : FVal.nan ∈ trainBatchLosses optStep criterion rng
      { m with mode := Mode.training } o 0 dl) :
    ∃ a, (train m dl o optStep criterion rng).2.2 = .ok (.nan, a) := by
  simp only [train]
  rw [if_neg (by simpa using hdl)]
  refine ⟨((0 : ℚ) + (trainBatchAccs optStep criterion rng
    { m with mode := Mode.training } o 0 dl).sum) / (dl.length : ℚ), ?_⟩
  rw [trainLoop_metrics]
  simp only
  rw [FVal.foldl_add_of_nan_mem _ hnan]
  rfl

/-- C1 witness: the amended theorem applied to a concrete one-batch
epoch whose loss function yields NaN. -/
theorem C1_witness :
    ([witBatch] : List Batch) ≠ []
    ∧ FVal.nan ∈ trainBatchLosses witStep witCriterionNan witRng
        { witModel with mode := Mode.training } () 0 [witBatch]
    ∧ ∃ a, (train witModel [witBatch] () witStep witCriterionNan witRng).2.2
        = .ok (.nan, a) :=
  ⟨by simp, by decide,
    C1_nan_absorbed witModel [witBatch] () witStep witCriterionNan witRng
      (by simp) (by decide)⟩

/-- C7: over a non-empty batch sequence, train and evaluate both
return exactly the sum of the per-batch losses divided by the number
of batches, and the sum of the per-batch accuracies divided by the
number of batches: each batch is weighted equally regardless of its
size. -/
theorem C7_epoch_means {O : Type} (m : SentimentClassifier) (dl : List Batch)
    (o : O) (optStep : OptStep O) (criterion : Criterion)
    (rng : ℕ → ℕ → List Bool) (h : dl ≠ []) :
    (train m dl o optStep criterion rng).2.2
      = .ok ((FVal.sumList (trainBatchLosses optStep criterion rng
            { m with mode := Mode.training } o 0 dl)).divNat dl.length,
          (trainBatchAccs optStep criterion rng
            { m with mode := Mode.training } o 0 dl).sum / (dl.length : ℚ))
    ∧ (evaluate m dl criterion rng).2.2
      = .ok ((FVal.sumList (evalBatchLosses { m with mode := Mode.evaluation }
            criterion rng 0 dl)).divNat dl.length,
          (evalBatchAccs { m with mode := Mode.evaluation } criterion rng 0 dl).sum
            / (dl.length : ℚ)) := by
  constructor
  · simp only [train]
    rw [if_neg (by simpa using h)]
    rw [trainLoop_metrics]
    simp [FVal.sumList]
  · simp only [evaluate]
    rw [if_neg (by simpa using h)]
    rw [evalLoop_metrics]
    simp [FVal.sumList]

/-- C7 witness: the epoch-mean theorem applied to a concrete
one-batch run of train and evaluate. -/
theorem C7_witness :
    ([witBatch] : List Batch) ≠ []
    ∧ (train witModel [witBatch] () witStep witCriterionOne witRng).2.2
      = .ok ((FVal.sumList (trainBatchLosses witStep witCriterionOne witRng
            { witModel with mode := Mode.training } () 0 [witBatch])).divNat
              ([witBatch] : List Batch).length,
          (trainBatchAccs witStep witCriterionOne witRng
            { witModel with mode := Mode.training } () 0 [witBatch]).sum
            / ((([witBatch] : List Batch).length : ℕ) : ℚ))
    ∧ (evaluate witModel [witBatch] witCriterionOne witRng).2.2
      = .ok ((FVal.sumList (evalBatchLosses { witModel with mode := Mode.evaluation }
            witCriterionOne witRng 0 [witBatch])).divNat
              ([witBatch] : List Batch).length,
          (evalBatchAccs { witModel with mode := Mode.evaluation }
            witCriterionOne witRng 0 [witBatch]).sum
            / ((([witBatch] : List Batch).length : ℕ) : ℚ)) :=
  ⟨by simp,
    (C7_epoch_means witModel [witBatch] () witStep witCriterionOne witRng
      (by simp)).1,
    (C7_epoch_means witModel [witBatch] () witStep witCriterionOne witRng
      (by simp)).2⟩

/-- C8: the predicted class of a logit vector is the argmax with ties
broken by the lowest class index (it is a valid index, no entry
exceeds it, and every entry before it is strictly smaller), and batch
accuracy, the fraction of samples whose predicted class equals the
true label, always lies in [0, 1]. -/
theorem C8_argmax_accuracy (l : List ℚ) (hl : l ≠ [])
    (predictions : List (List ℚ)) (labels : List ℤ) (hlab : labels ≠ []) :
    (torchArgmax l < l.length
      ∧ (∀ j, j < l.length → l.getD j 0 ≤ l.getD (torchArgmax l) 0)
      ∧ (∀ j, j < torchArgmax l → l.getD j 0 < l.getD (torchArgmax l) 0))
    ∧ (0 ≤ calculate_accuracy predictions labels
      ∧ calculate_accuracy predictions labels ≤ 1) := by
  refine ⟨⟨torchArgmax_lt_length l hl, fun j hj => torchArgmax_getD_le l hl j hj,
    fun j hj => torchArgmax_first l j hj⟩, ?_, ?_⟩
  · unfold calculate_accuracy
    apply div_nonneg
    · exact Nat.cast_nonneg _
    · exact Nat.cast_nonneg _
  · unfold calculate_accuracy
    have hn : 0 < (labels.length : ℚ) := by
      have h2 : 0 < labels.length := List.length_pos.mpr hlab
      exact_mod_cast h2
    rw [div_le_one hn]
    have hcount : (List.zip (predictions.map torchArgmax) labels).countP
        (fun pl => decide ((pl.1 : ℤ) = pl.2)) ≤ labels.length := by
      calc (List.zip (predictions.map torchArgmax) labels).countP
            (fun pl => decide ((pl.1 : ℤ) = pl.2))
          ≤ (List.zip (predictions.map torchArgmax) labels).length :=
            List.countP_le_length _
        _ ≤ labels.length := by
            rw [List.length_zip]
            omega
    exact_mod_cast hcount

/-- C8 witness: the argmax and accuracy-bound theorem applied to a
concrete logit vector and a concrete one-sample batch. -/
theorem C8_witness :
    ([1, 3, 2] : List ℚ) ≠ []
    ∧ ([1] : List ℤ) ≠ []
    ∧ torchArgmax [1, 3, 2] < ([1, 3, 2] : List ℚ).length
    ∧ (0 ≤ calculate_accuracy [[0, 1]] [1]
        ∧ calculate_accuracy [[0, 1]] [1] ≤ 1) :=
  ⟨by simp, by simp,
    (C8_argmax_accuracy [1, 3, 2] (by simp) [[0, 1]] [1] (by simp)).1.1,
    (C8_argmax_accuracy [1, 3, 2] (by simp) [[0, 1]] [1] (by simp)).2⟩

/-- C9: for a classifier whose output layer has the 3-class shape,
predict_sentiment always returns a member of the fixed label set
consisting of negative, neutral and positive, obtained by looking up
the argmax class in sentiment_map_inv, the swapped-pair inverse of
the bijective label table sentiment_map; and the call leaves the
classifier parameters unchanged (only the mode flag is switched to
evaluation). -/
theorem C9_predict_label_set (m : SentimentClassifier)
    (st_encode : String → List ℚ) (preprocess : String → String)
    (sentence : String) (h2W : m.fc2W.length = 3) (h2b : m.fc2b.length = 3) :
    (∃ s, (predict_sentiment m st_encode sentence preprocess).2 = some s
      ∧ (s = "negative" ∨ s = "neutral" ∨ s = "positive"))
    ∧ (predict_sentiment m st_encode sentence preprocess).1.fc1W = m.fc1W
    ∧ (predict_sentiment m st_encode sentence preprocess).1.fc1b = m.fc1b
    ∧ (predict_sentiment m st_encode sentence preprocess).1.fc2W = m.fc2W
    ∧ (predict_sentiment m st_encode sentence preprocess).1.fc2b = m.fc2b
    ∧ sentiment_map_inv = [(0, "negative"), (1, "neutral"), (2, "positive")] := by
  refine ⟨?_, rfl, rfl, rfl, rfl, rfl⟩
  unfold predict_sentiment
  simp only
  have hlen : (({ m with mode := Mode.evaluation } : SentimentClassifier).forward []
      (st_encode (preprocess sentence))).length = 3 := by
    simp [SentimentClassifier.forward, affine, matVec, List.length_zipWith, h2W, h2b]
  have hlt : torchArgmax (({ m with mode := Mode.evaluation } :
      SentimentClassifier).forward [] (st_encode (preprocess sentence))) < 3 := by
    rw [← hlen]
    apply torchArgmax_lt_length
    intro hnil
    rw [hnil] at hlen
    simp at hlen
  have h3 : torchArgmax (({ m with mode := Mode.evaluation } :
        SentimentClassifier).forward [] (st_encode (preprocess sentence))) = 0
      ∨ torchArgmax (({ m with mode := Mode.evaluation } :
        SentimentClassifier).forward [] (st_encode (preprocess sentence))) = 1
      ∨ torchArgmax (({ m with mode := Mode.evaluation } :
        SentimentClassifier).forward [] (st_encode (preprocess sentence))) = 2 := by
    omega
  rcases h3 with h | h | h <;> rw [h]
  · exact ⟨"negative", rfl, Or.inl rfl⟩
  · exact ⟨"neutral", rfl, Or.inr (Or.inl rfl)⟩
  · exact ⟨"positive", rfl, Or.inr (Or.inr rfl)⟩

/-- C9 witness: the label-set theorem applied to a concrete 3-output
classifier, a concrete encoder and a concrete sentence. -/
theorem C9_witness :
    witModel9.fc2W.length = 3
    ∧ witModel9.fc2b.length = 3
    ∧ ∃ s, (predict_sentiment witModel9 (fun _ => [1]) "hi" (fun t => t)).2 = some s
        ∧ (s = "negative" ∨ s = "neutral" ∨ s = "positive") :=
  ⟨rfl, rfl, (C9_predict_label_set witModel9 (fun _ => [1]) (fun t => t) "hi"
    rfl rfl).1⟩

/-- C10: with zero batches both train and evaluate reach the final
division by len(dataloader) and raise ZeroDivisionError; with at
least one sample in the dataset the dataloader yields at least one
batch and both functions return well-defined epoch metrics, so the
division is safe exactly under that precondition. -/
theorem C10_batch_count_division {O : Type} (m : SentimentClassifier) (o : O)
    (optStep : OptStep O) (criterion : Criterion) (rng : ℕ → ℕ → List Bool)
    (B : ℕ) (samples : List (List ℚ × ℤ)) (hB : 0 < B) (hs : samples ≠ []) :
    ((train m [] o optStep criterion rng).2.2 = .error .zeroDivisionError
      ∧ (evaluate m [] criterion rng).2.2 = .error .zeroDivisionError)
    ∧ ((∃ p, (train m (dataLoaderBatches B samples) o optStep criterion rng).2.2
          = .ok p)
      ∧ (∃ p, (evaluate m (dataLoaderBatches B samples) criterion rng).2.2
          = .ok p)) := by
  have hne : ¬ (dataLoaderBatches B samples).length = 0 := by
    have hc : dataLoaderChunks B samples ≠ [] := by
      rw [ne_eq, dataLoaderChunks_eq_nil_iff]
      exact hs
    simpa [dataLoaderBatches, List.length_eq_zero] using hc
  refine ⟨⟨rfl, rfl⟩, ?_, ?_⟩
  · exact ⟨_, by simp only [train]; rw [if_neg hne]⟩
  · exact ⟨_, by simp only [evaluate]; rw [if_neg hne]⟩

/-- C10 witness: the division-safety theorem applied to a concrete
empty run and a concrete one-sample dataset at batch size 64. -/
theorem C10_witness :
    0 < 64
    ∧ ([(([1], 0) : List ℚ × ℤ)] : List (List ℚ × ℤ)) ≠ []
    ∧ (train witModel [] () witStep witCriterionOne witRng).2.2
        = .error .zeroDivisionError
    ∧ ∃ p, (train witModel (dataLoaderBatches 64 [([1], 0)]) () witStep
        witCriterionOne witRng).2.2 = .ok p :=
  ⟨by decide, by simp,
    (C10_batch_count_division witModel () witStep witCriterionOne witRng 64
      [([1], 0)] (by decide) (by simp)).1.1,
    (C10_batch_count_division witModel () witStep witCriterionOne witRng 64
      [([1], 0)] (by decide) (by simp)).2.1⟩
